import Mathlib

/-!
Verification of the Oblysk Platform-Adaptive Input Dispatch Layer.

Shallow embedding of the dispatch layer of `src/main.js` (and the
Windows-specific variant in `src/unnamed/part_000`): SendKeys escaping,
command execution with timeout, batched keystroke pacing, clipboard
monitoring, the bounded log buffer, and the PowerShell / AppleScript
string escaping used by the paste paths.
-/

namespace Oblysk

/-- The backtick character (U+0060), used by the PowerShell escaping path. -/
def btick : Char := Char.ofNat 96

/-- The single-quote character (U+0027), doubled when a SendKeys literal is
embedded in a single-quoted PowerShell string. -/
def squote : Char := Char.ofNat 39

/-- The ten characters special to Windows SendKeys
(`src/main.js` lines 551-565). -/
def sendKeysSpecialChars : List Char :=
  ['\x7b', '\x7d', '+', '^', '%', '~', '(', ')', '[', ']']

/-- Function `escapeSendKeys` from `src/main.js` lines 551-565, as a map from
a character to the list of characters it contributes to the SendKeys literal. -/
def escapeSendKeysL (c : Char) : List Char :=
  if c = '\x7b' then ['\x7b', '\x7b']
  else if c = '\x7d' then ['\x7d', '\x7d']
  else if c = '+' then ['\x7b', '+', '\x7d']
  else if c = '^' then ['\x7b', '^', '\x7d']
  else if c = '%' then ['\x7b', '%', '\x7d']
  else if c = '~' then ['\x7b', '~', '\x7d']
  else if c = '(' then ['\x7b', '(', '\x7d']
  else if c = ')' then ['\x7b', ')', '\x7d']
  else if c = '[' then ['\x7b', '[', '\x7d']
  else if c = ']' then ['\x7b', ']', '\x7d']
  else [c]

/-- Function `escapeSendKeys` from `src/main.js`, at the `String` type of the
source. -/
def escapeSendKeys (c : Char) : String := String.mk (escapeSendKeysL c)

/-- The per-batch escaping loop of `simulateKeystrokesWindows`
(`src/main.js` lines 587-590): each character of the batch is passed through
`escapeSendKeys` and the results are concatenated. -/
def escapedBatchWindows (batch : List Char) : List Char :=
  batch.flatMap escapeSendKeysL

/-- The JS quote-doubling replace pass of `simulateKeystrokesWindows`
(`src/main.js` line 592) and `pasteViaShellWindows` (line 624): every
single quote is doubled. -/
def psQuoteDouble (cs : List Char) : List Char :=
  cs.flatMap fun c => if c = squote then [squote, squote] else [c]

/-- The full literal placed inside the single-quoted PowerShell string by one
batch of `simulateKeystrokesWindows` (`src/main.js` lines 586-593). -/
def windowsBatchLiteral (batch : List Char) : List Char :=
  psQuoteDouble (escapedBatchWindows batch)

/-- Modelled from the spec: the PowerShell unescaping of a single-quoted string
body, which turns each doubled single quote back into one quote.  PowerShell
itself is not part of the repository; this is the inverse assumed by the
quote-doubling rule of the spec. -/
def psSingleQuoteUnescape : List Char → List Char
  | c1 :: c2 :: rest =>
    if c1 = squote ∧ c2 = squote then squote :: psSingleQuoteUnescape rest
    else c1 :: psSingleQuoteUnescape (c2 :: rest)
  | [c] => [c]
  | [] => []

/-- Modelled from the spec: the own unescaping, by the SendKeys interpreter, of the
literal produced by the escaping table (`'\x7b'` → `'\x7b''\x7b'`,
`'+'` → `'\x7b''+''\x7d'`, and so on).  SendKeys is a Windows facility, not
part of the repository; this decoder inverts exactly the grammar described
by the table of the spec. -/
def sendKeysUnescape : List Char → List Char
  | '\x7b' :: '\x7b' :: rest => '\x7b' :: sendKeysUnescape rest
  | '\x7d' :: '\x7d' :: rest => '\x7d' :: sendKeysUnescape rest
  | '\x7b' :: c :: '\x7d' :: rest => c :: sendKeysUnescape rest
  | c :: rest => c :: sendKeysUnescape rest
  | [] => []

/-- The batch-size computation of `simulateKeystrokesWindows`
(`src/main.js` line 571): `Math.max(1, Math.min(20, Math.floor(200 / delay)))`. -/
def batchSize (delay : Nat) : Nat :=
  max 1 (min 20 (200 / delay))

/-- The clamp function in the words of the spec:
`clamp(x, lo, hi)` keeps `x` inside `[lo, hi]`. -/
def clampSpec (x lo hi : Nat) : Nat :=
  min hi (max lo x)

/-- One tick of the clipboard polling loop (`src/main.js` lines 463-480).
`read = none` models a `clipboard.readText()` that throws: the tick is
skipped.  Otherwise an event fires exactly when the text differs from the
stored snapshot and is non-empty, and the snapshot is updated exactly then.
Returns the new snapshot and the emitted event, if any. -/
def monitorTick (last : String) (read : Option String) : String × Option String :=
  match read with
  | none => (last, none)
  | some t => if t ≠ last ∧ t.length > 0 then (t, some t) else (last, none)

/-- Runs the clipboard monitor over a sequence of tick reads, starting from
snapshot `last`; returns the final snapshot and the list of emitted
change events, in order. -/
def monitorRun (last : String) : List (Option String) → String × List String
  | [] => (last, [])
  | r :: rs =>
    let step := monitorTick last r
    let rest := monitorRun step.1 rs
    (rest.1, (step.2.toList) ++ rest.2)

/-- The buffer update of `MainProcessLogger.log` (`src/main.js` lines 56-59):
the new entry is pushed at the front with `unshift`, then the last entry is
popped when the length exceeds `maxLogs`. -/
def recordLog {α : Type} (maxLogs : Nat) (e : α) (logs : List α) : List α :=
  let l := e :: logs
  if maxLogs < l.length then l.dropLast else l

/-- Folds a sequence of `log` calls into the buffer, oldest call first. -/
def recordAll {α : Type} (maxLogs : Nat) (es : List α) (logs : List α) : List α :=
  es.foldl (fun acc e => recordLog maxLogs e acc) logs

/-- The structured result object resolved by `executeCommand`
(`src/main.js` lines 492-544).  Absent JS fields are `none`. -/
structure CmdResult where
  success : Bool
  message : Option String
  error : Option String
  output : Option String
  code : Option Int
  timeoutVal : Option Nat
deriving Repr, DecidableEq

/-- The events the child process of `executeCommand` can deliver, in the order
the event loop observes them: the timeout timer firing, stdout/stderr data
chunks, the `close` event with an exit code, or a spawn-level `error`. -/
inductive ProcEvent where
  | timeoutFires
  | stdoutData (s : String)
  | stderrData (s : String)
  | closeEvt (code : Int)
  | errorEvt (msg : String)
deriving Repr, DecidableEq

/-- Whether an event is terminal: one of {timeout, close, error}. -/
def ProcEvent.isTerminal : ProcEvent → Bool
  | .timeoutFires => true
  | .closeEvt _ => true
  | .errorEvt _ => true
  | _ => false

/-- The mutable state of one `executeCommand` invocation: the accumulated
stdout and stderr text, the `completed` guard flag, and the resolved result. -/
structure ExecState where
  output : String
  error : String
  completed : Bool
  result : Option CmdResult
deriving Repr, DecidableEq

/-- The reaction of `executeCommand` to one event (`src/main.js` lines 502-542):
each handler checks the `completed` flag, sets it, and resolves; data
handlers append to the captured streams. -/
def execStep (timeoutMs : Nat) (s : ExecState) : ProcEvent → ExecState
  | .timeoutFires =>
    if s.completed then s
    else { s with
           completed := true,
           result := some { success := false, message := none,
                            error := some "Command timed out", output := none,
                            code := none, timeoutVal := some timeoutMs } }
  | .stdoutData d => { s with output := s.output ++ d }
  | .stderrData d => { s with error := s.error ++ d }
  | .closeEvt c =>
    if s.completed then s
    else { s with
           completed := true,
           result := some (if c = 0 then
             { success := true, message := some "Command executed successfully",
               error := none, output := some s.output, code := some c,
               timeoutVal := none }
           else
             { success := false, message := none,
               error := some (if s.error = "" then
                 "Command failed with code " ++ toString c else s.error),
               output := some s.output, code := some c, timeoutVal := none }) }
  | .errorEvt m =>
    if s.completed then s
    else { s with
           completed := true,
           result := some { success := false, message := none, error := some m,
                            output := none, code := none, timeoutVal := none } }

/-- Function `executeCommand` (`src/main.js` lines 492-544) over a trace of process
events: folds the handlers over the events from the initial state. -/
def executeCommand (timeoutMs : Nat) (events : List ProcEvent) : ExecState :=
  events.foldl (execStep timeoutMs) ⟨"", "", false, none⟩

/-- The stdout text accumulated over a list of events. -/
def stdoutOf : List ProcEvent → String
  | [] => ""
  | .stdoutData d :: rest => d ++ stdoutOf rest
  | _ :: rest => stdoutOf rest

/-- The stderr text accumulated over a list of events. -/
def stderrOf : List ProcEvent → String
  | [] => ""
  | .stderrData d :: rest => d ++ stderrOf rest
  | _ :: rest => stderrOf rest

/-- The result the spec assigns to the first terminal event, given the
stdout/stderr captured so far; `none` for a non-terminal event. -/
def resolveEvent (timeoutMs : Nat) (out err : String) : ProcEvent → Option CmdResult
  | .timeoutFires =>
    some { success := false, message := none, error := some "Command timed out",
           output := none, code := none, timeoutVal := some timeoutMs }
  | .closeEvt c =>
    some (if c = 0 then
      { success := true, message := some "Command executed successfully",
        error := none, output := some out, code := some c, timeoutVal := none }
    else
      { success := false, message := none,
        error := some (if err = "" then
          "Command failed with code " ++ toString c else err),
        output := some out, code := some c, timeoutVal := none })
  | .errorEvt m =>
    some { success := false, message := none, error := some m, output := none,
           code := none, timeoutVal := none }
  | _ => none

/-- The outcome chosen by `simulateKeystrokesMac` (`src/main.js` lines
678-692): either the clipboard-paste path (clipboard write, 100ms settle,
Cmd+V via osascript) or a single osascript keystroke invocation. -/
inductive MacAction where
  | clipboardPaste (text : String)
  | keystroke (script : String)
deriving Repr, DecidableEq

/-- Whether a `MacAction` is the clipboard-paste redirection. -/
def MacAction.isClipboardPaste : MacAction → Bool
  | .clipboardPaste _ => true
  | .keystroke _ => false

/-- The AppleScript escaping of `simulateKeystrokesMac` (`src/main.js` line
688): `.replace(/\\/g, s1).replace(/"/g, s2)` — first every backslash is
doubled, then every double quote gets a backslash prefix, in that order. -/
def escapeAppleScriptL (cs : List Char) : List Char :=
  (cs.flatMap fun c => if c = '\\' then ['\\', '\\'] else [c]).flatMap
    fun c => if c = '"' then ['\\', '"'] else [c]

/-- Modelled from the spec: the AppleScript unescaping of a string literal
body (`\x` decodes to `x`).  The AppleScript interpreter is not part of the
repository. -/
def appleScriptUnescape : List Char → List Char
  | '\\' :: c :: rest => c :: appleScriptUnescape rest
  | c :: rest => c :: appleScriptUnescape rest
  | [] => []

/-- Function `simulateKeystrokesMac` (`src/main.js` lines 678-692): text longer than
200 characters is redirected to the clipboard-paste path; otherwise one
osascript keystroke invocation carries the escaped text. -/
def simulateKeystrokesMac (text : String) : MacAction :=
  if text.length > 200 then .clipboardPaste text
  else .keystroke ("tell application \"System Events\" to keystroke \""
    ++ String.mk (escapeAppleScriptL text.toList) ++ "\"")

/-- The escaping loop of `pasteViaShellWindows` (`src/main.js` lines
618-623): newline contributes the token `\x7bENTER\x7d`, carriage return is
skipped, every other character goes through `escapeSendKeys`. -/
def pasteShellEscapeWindows : List Char → List Char
  | [] => []
  | c :: rest =>
    (if c = '\n' then ['\x7b', 'E', 'N', 'T', 'E', 'R', '\x7d']
     else if c = '\r' then []
     else escapeSendKeysL c) ++ pasteShellEscapeWindows rest

/-- One JS-style global single-character replace: each occurrence of `c`
becomes the list `out`. -/
def jsReplaceChar (c : Char) (out : List Char) (cs : List Char) : List Char :=
  cs.flatMap fun x => if x = c then out else [x]

/-- The JS `.replace(/\r?\n/g, s)` pass of the `paste-powershell` handler:
a left-to-right scan replacing `\r\n` or a lone `\n` with the token
`\x7bENTER\x7d`; a lone carriage return is not matched. -/
def jsReplaceCRLF : List Char → List Char
  | '\r' :: '\n' :: rest => ['\x7b', 'E', 'N', 'T', 'E', 'R', '\x7d'] ++ jsReplaceCRLF rest
  | '\n' :: rest => ['\x7b', 'E', 'N', 'T', 'E', 'R', '\x7d'] ++ jsReplaceCRLF rest
  | c :: rest => c :: jsReplaceCRLF rest
  | [] => []

/-- The escaping chain of the Windows `paste-powershell` handler
(`src/unnamed/part_000` lines 585-592), applied in source order: backslash
doubled, double quote doubled, backtick doubled, then backtick prefixes for
`$`, `[`, `]`, then `\r?\n` to the ENTER token. -/
def escapePowerShellDQ (cs : List Char) : List Char :=
  jsReplaceCRLF
    (jsReplaceChar ']' [btick, ']']
      (jsReplaceChar '[' [btick, '[']
        (jsReplaceChar '$' [btick, '$']
          (jsReplaceChar btick [btick, btick]
            (jsReplaceChar '"' ['"', '"']
              (jsReplaceChar '\\' ['\\', '\\'] cs))))))

/-- The final result object of `simulateKeystrokesWindows`
(`src/main.js` lines 577-583): `success` iff the error list stayed empty,
and `errors` only present when non-empty. -/
structure BatchRunResult where
  success : Bool
  errors : Option (List String)
deriving Repr, DecidableEq

/-- The batched loop of `simulateKeystrokesWindows` (`src/main.js` lines
570-607): starting at offset 0, each batch advances the offset by the batch
size; `fail offset = some msg` models the `exec` callback reporting an error
for the batch at that text offset, which is appended to the error list and
never aborts the loop. -/
def simulateKeystrokesWindowsRun (textLen delay : Nat)
    (fail : Nat → Option String) : BatchRunResult :=
  go 0 []
where
  go (index : Nat) (errors : List String) : BatchRunResult :=
    if _h : textLen ≤ index then
      { success := errors.isEmpty,
        errors := if errors.isEmpty then none else some errors }
    else
      go (index + batchSize delay)
        (errors ++ ((fail index).map
          (fun m => "Position " ++ toString index ++ ": " ++ m)).toList)
  termination_by textLen - index
  decreasing_by
    have h1 : 1 ≤ batchSize delay := Nat.le_max_left 1 _
    omega

/-- The offsets at which batches are attempted, derived independently of the
error accumulation: every multiple of the batch size below the text length. -/
def attemptedOffsets (textLen bs : Nat) (index : Nat) : List Nat :=
  if _h : textLen ≤ index then []
  else index :: attemptedOffsets textLen bs (index + max 1 bs)
  termination_by textLen - index
  decreasing_by omega

/-- The clipboard-monitor timer state: `handle` is the module-level
`clipboardMonitorInterval` variable, `live` the set of interval timers the
runtime currently has active, `nextId` a source of fresh timer ids. -/
structure MonitorState where
  handle : Option Nat
  live : List Nat
  nextId : Nat
deriving Repr, DecidableEq

/-- Function `stopClipboardMonitoring` (`src/main.js` lines 483-489): clears the
stored interval when one exists, else does nothing. -/
def stopClipboardMonitoring (s : MonitorState) : MonitorState :=
  match s.handle with
  | some h => { handle := none, live := s.live.erase h, nextId := s.nextId }
  | none => s

/-- Function `startClipboardMonitoring` (`src/main.js` lines 450-481): first stops any
existing monitor, then creates a fresh interval timer and stores its handle. -/
def startClipboardMonitoring (s : MonitorState) : MonitorState :=
  let s1 := stopClipboardMonitoring s
  { handle := some s1.nextId, live := s1.live ++ [s1.nextId],
    nextId := s1.nextId + 1 }

/-- The invariant tying the stored handle to the active timers of the runtime:
either no monitor exists, or exactly the stored one is live and its id is
below the fresh-id counter. -/
def MonitorInv (s : MonitorState) : Prop :=
  (s.handle = none ∧ s.live = []) ∨
    (∃ h, s.handle = some h ∧ s.live = [h] ∧ h < s.nextId)

/-- The literal ENTER key token of the SendKeys grammar. -/
def enterToken : List Char := ['\x7b', 'E', 'N', 'T', 'E', 'R', '\x7d']

/-- The per-character translation that the PowerShell double-quoted-string
rules amount to, once corrected against the source: backtick, `$`, `[` and
`]` get a backtick prefix, while backslash is escaped by doubling the
backslash and double quote by doubling the quote. -/
def psDQCharMap (c : Char) : List Char :=
  if c = '\\' then ['\\', '\\']
  else if c = '"' then ['"', '"']
  else if c = btick then [btick, btick]
  else if c = '$' then [btick, '$']
  else if c = '[' then [btick, '[']
  else if c = ']' then [btick, ']']
  else [c]

/-- The itemized error list the batched Windows run should report: one
`Position <offset>: <message>` entry per attempted batch offset whose
invocation failed. -/
def itemizedErrors (textLen bs : Nat) (fail : Nat → Option String) : List String :=
  (attemptedOffsets textLen bs 0).flatMap fun i =>
    ((fail i).map fun m => "Position " ++ toString i ++ ": " ++ m).toList

lemma sku_open (t : List Char) :
    sendKeysUnescape ('\x7b' :: '\x7b' :: t) = '\x7b' :: sendKeysUnescape t := by
  rw [sendKeysUnescape.eq_def]
  simp

lemma sku_close (t : List Char) :
    sendKeysUnescape ('\x7d' :: '\x7d' :: t) = '\x7d' :: sendKeysUnescape t := by
  rw [sendKeysUnescape.eq_def]
  simp

lemma sku_wrap (c : Char) (t : List Char) (h : c ≠ '\x7b') :
    sendKeysUnescape ('\x7b' :: c :: '\x7d' :: t) = c :: sendKeysUnescape t := by
  rw [sendKeysUnescape.eq_def]
  simp [h]

lemma sku_other (c : Char) (t : List Char) (h1 : c ≠ '\x7b') (h2 : c ≠ '\x7d') :
    sendKeysUnescape (c :: t) = c :: sendKeysUnescape t := by
  rw [sendKeysUnescape.eq_def]
  cases t with
  | nil => simp [h1, h2]
  | cons c2 t2 => simp [h1, h2]

lemma sku_block (c : Char) (t : List Char) :
    sendKeysUnescape (escapeSendKeysL c ++ t) = c :: sendKeysUnescape t := by
  by_cases h1 : c = '\x7b'
  · subst h1
    have e : escapeSendKeysL '\x7b' = ['\x7b', '\x7b'] := by decide
    rw [e]
    exact sku_open t
  by_cases h2 : c = '\x7d'
  · subst h2
    have e : escapeSendKeysL '\x7d' = ['\x7d', '\x7d'] := by decide
    rw [e]
    exact sku_close t
  by_cases h3 : c = '+'
  · subst h3
    have e : escapeSendKeysL '+' = ['\x7b', '+', '\x7d'] := by decide
    rw [e]
    exact sku_wrap _ t (by decide)
  by_cases h4 : c = '^'
  · subst h4
    have e : escapeSendKeysL '^' = ['\x7b', '^', '\x7d'] := by decide
    rw [e]
    exact sku_wrap _ t (by decide)
  by_cases h5 : c = '%'
  · subst h5
    have e : escapeSendKeysL '%' = ['\x7b', '%', '\x7d'] := by decide
    rw [e]
    exact sku_wrap _ t (by decide)
  by_cases h6 : c = '~'
  · subst h6
    have e : escapeSendKeysL '~' = ['\x7b', '~', '\x7d'] := by decide
    rw [e]
    exact sku_wrap _ t (by decide)
  by_cases h7 : c = '('
  · subst h7
    have e : escapeSendKeysL '(' = ['\x7b', '(', '\x7d'] := by decide
    rw [e]
    exact sku_wrap _ t (by decide)
  by_cases h8 : c = ')'
  · subst h8
    have e : escapeSendKeysL ')' = ['\x7b', ')', '\x7d'] := by decide
    rw [e]
    exact sku_wrap _ t (by decide)
  by_cases h9 : c = '['
  · subst h9
    have e : escapeSendKeysL '[' = ['\x7b', '[', '\x7d'] := by decide
    rw [e]
    exact sku_wrap _ t (by decide)
  by_cases h10 : c = ']'
  · subst h10
    have e : escapeSendKeysL ']' = ['\x7b', ']', '\x7d'] := by decide
    rw [e]
    exact sku_wrap _ t (by decide)
  have e : escapeSendKeysL c = [c] := by
    simp [escapeSendKeysL, h1, h2, h3, h4, h5, h6, h7, h8, h9, h10]
  rw [e, List.singleton_append]
  exact sku_other c t h1 h2

lemma sendKeys_batch_roundtrip (cs : List Char) :
    sendKeysUnescape (escapedBatchWindows cs) = cs := by
  induction cs with
  | nil => rfl
  | cons c rest ih =>
    simp only [escapedBatchWindows, List.flatMap_cons] at ih ⊢
    rw [sku_block, ih]

lemma psq_other (c : Char) (t : List Char) (h : c ≠ squote) :
    psSingleQuoteUnescape (c :: t) = c :: psSingleQuoteUnescape t := by
  rw [psSingleQuoteUnescape.eq_def]
  cases t with
  | nil => simp [psSingleQuoteUnescape]
  | cons c2 t2 => simp [h]

lemma psq_roundtrip (cs : List Char) :
    psSingleQuoteUnescape (psQuoteDouble cs) = cs := by
  induction cs with
  | nil => rfl
  | cons c rest ih =>
    by_cases h : c = squote
    · subst h
      have e : psQuoteDouble (squote :: rest) = squote :: squote :: psQuoteDouble rest := by
        simp [psQuoteDouble]
      rw [e, psSingleQuoteUnescape.eq_def]
      simp [ih]
    · have e : psQuoteDouble (c :: rest) = c :: psQuoteDouble rest := by
        simp [psQuoteDouble, h]
      rw [e, psq_other c _ h, ih]

lemma escapeSendKeysL_other (c : Char) (hc : c ∉ sendKeysSpecialChars) :
    escapeSendKeysL c = [c] := by
  have h1 : c ≠ '\x7b' := by rintro rfl; exact hc (by decide)
  have h2 : c ≠ '\x7d' := by rintro rfl; exact hc (by decide)
  have h3 : c ≠ '+' := by rintro rfl; exact hc (by decide)
  have h4 : c ≠ '^' := by rintro rfl; exact hc (by decide)
  have h5 : c ≠ '%' := by rintro rfl; exact hc (by decide)
  have h6 : c ≠ '~' := by rintro rfl; exact hc (by decide)
  have h7 : c ≠ '(' := by rintro rfl; exact hc (by decide)
  have h8 : c ≠ ')' := by rintro rfl; exact hc (by decide)
  have h9 : c ≠ '[' := by rintro rfl; exact hc (by decide)
  have h10 : c ≠ ']' := by rintro rfl; exact hc (by decide)
  unfold escapeSendKeysL
  rw [if_neg h1, if_neg h2, if_neg h3, if_neg h4, if_neg h5, if_neg h6,
    if_neg h7, if_neg h8, if_neg h9, if_neg h10]

lemma psQuoteDouble_count (cs : List Char) :
    (psQuoteDouble cs).count squote = 2 * cs.count squote := by
  induction cs with
  | nil => rfl
  | cons c rest ih =>
    by_cases h : c = squote
    · subst h
      have e : psQuoteDouble (squote :: rest) = squote :: squote :: psQuoteDouble rest := by
        simp [psQuoteDouble]
      rw [e]
      simp [List.count_cons, ih]
      omega
    · have e : psQuoteDouble (c :: rest) = c :: psQuoteDouble rest := by
        simp [psQuoteDouble, h]
      rw [e]
      simp [List.count_cons, h, ih]

/-- C1: the Windows SendKeys escaping function maps each of the ten special
characters to its individually wrapped form and leaves every other character
unchanged; the quote-doubling pass doubles every embedded single quote; and
escaping followed by the own unescaping of the target tool (PowerShell
single-quote undoubling, then the SendKeys grammar) restores the original
text. -/
theorem escapeSendKeys_table_and_roundtrip :
    (escapeSendKeys '\x7b' = "\x7b\x7b" ∧ escapeSendKeys '\x7d' = "\x7d\x7d" ∧
      escapeSendKeys '+' = "\x7b+\x7d" ∧ escapeSendKeys '^' = "\x7b^\x7d" ∧
      escapeSendKeys '%' = "\x7b%\x7d" ∧ escapeSendKeys '~' = "\x7b~\x7d" ∧
      escapeSendKeys '(' = "\x7b(\x7d" ∧ escapeSendKeys ')' = "\x7b)\x7d" ∧
      escapeSendKeys '[' = "\x7b[\x7d" ∧ escapeSendKeys ']' = "\x7b]\x7d") ∧
    (∀ c : Char, c ∉ sendKeysSpecialChars → escapeSendKeys c = String.mk [c]) ∧
    (∀ cs : List Char, (psQuoteDouble cs).count squote = 2 * cs.count squote) ∧
    (∀ cs : List Char,
      sendKeysUnescape (psSingleQuoteUnescape (windowsBatchLiteral cs)) = cs) := by
  refine ⟨by decide, ?_, psQuoteDouble_count, ?_⟩
  · intro c hc
    unfold escapeSendKeys
    rw [escapeSendKeysL_other c hc]
  · intro cs
    rw [windowsBatchLiteral, psq_roundtrip, sendKeys_batch_roundtrip]

/-- Witness for C1: the non-special character `a` is left unchanged. -/
theorem escapeSendKeys_table_and_roundtrip_witness :
    escapeSendKeys 'a' = String.mk ['a'] :=
  escapeSendKeys_table_and_roundtrip.2.1 'a' (by decide)

/-- C3: for every positive delay, the keystroke batch size equals
`clamp(floor(200/delay), 1, 20)`, lies in `[1, 20]`, and takes the listed
values at delays 1, 10, 50, 200 and 1000. -/
theorem batchSize_clamp_spec (d : Nat) (hd : 0 < d) :
    batchSize d = clampSpec (200 / d) 1 20 ∧
    1 ≤ batchSize d ∧ batchSize d ≤ 20 ∧
    batchSize 1 = 20 ∧ batchSize 10 = 20 ∧ batchSize 50 = 4 ∧
    batchSize 200 = 1 ∧ batchSize 1000 = 1 := by
  clear hd
  refine ⟨?_, ?_, ?_, by decide, by decide, by decide, by decide, by decide⟩ <;>
    · simp only [batchSize, clampSpec]
      omega

/-- Witness for C3 at delay 50. -/
theorem batchSize_clamp_spec_witness :
    batchSize 50 = clampSpec (200 / 50) 1 20 ∧
    1 ≤ batchSize 50 ∧ batchSize 50 ≤ 20 ∧
    batchSize 1 = 20 ∧ batchSize 10 = 20 ∧ batchSize 50 = 4 ∧
    batchSize 200 = 1 ∧ batchSize 1000 = 1 :=
  batchSize_clamp_spec 50 (by decide)

lemma string_ne_empty_iff (s : String) : s ≠ "" ↔ 0 < s.length := by
  cases s with
  | mk data =>
    constructor
    · intro h
      cases data with
      | nil => exact absurd rfl h
      | cons c t => simp [String.length]
    · intro h he
      rw [he] at h
      simp [String.length] at h

lemma recordLog_head {α : Type} (e : α) (logs : List α) :
    (recordLog 200 e logs).head? = some e := by
  unfold recordLog
  cases logs with
  | nil => simp
  | cons c t =>
    by_cases h : 200 < (e :: c :: t).length
    · rw [if_pos h, List.dropLast_cons₂]
      simp
    · rw [if_neg h]
      simp

lemma recordLog_length {α : Type} (e : α) (logs : List α) (h : logs.length ≤ 200) :
    (recordLog 200 e logs).length ≤ 200 := by
  unfold recordLog
  by_cases hl : 200 < (e :: logs).length
  · rw [if_pos hl]
    simp [List.length_dropLast]
    exact h
  · rw [if_neg hl]
    simp at hl ⊢
    omega

lemma recordAll_length {α : Type} (es logs : List α) (h : logs.length ≤ 200) :
    (recordAll 200 es logs).length ≤ 200 := by
  induction es generalizing logs with
  | nil => exact h
  | cons e rest ih =>
    have e1 : recordAll 200 (e :: rest) logs = recordAll 200 rest (recordLog 200 e logs) := rfl
    rw [e1]
    exact ih _ (recordLog_length e logs h)

set_option maxRecDepth 10000 in
lemma ring250 : recordAll 200 (List.range' 1 250) ([] : List Nat) = (List.range' 51 200).reverse := by
  decide


set_option maxRecDepth 10000 in
lemma ring250_absent : ∀ k ∈ List.range' 1 50, k ∉ recordAll 200 (List.range' 1 250) ([] : List Nat) := by
  decide

/-- C9: the log buffer inserts each entry at the front, never exceeds 200
entries, and after 250 insertions holds exactly the 200 newest entries,
newest-first, with the 50 oldest absent. -/
theorem logRingBuffer_spec :
    (∀ (e : Nat) (logs : List Nat), (recordLog 200 e logs).head? = some e) ∧
    (∀ (es logs : List Nat), logs.length ≤ 200 → (recordAll 200 es logs).length ≤ 200) ∧
    recordAll 200 (List.range' 1 250) ([] : List Nat) = (List.range' 51 200).reverse ∧
    (∀ k ∈ List.range' 1 50, k ∉ recordAll 200 (List.range' 1 250) ([] : List Nat)) :=
  ⟨fun e logs => recordLog_head e logs,
   fun es logs h => recordAll_length es logs h,
   ring250, ring250_absent⟩

/-- C4: a clipboard tick emits a change event exactly when the read
succeeds, differs from the snapshot, and is non-empty; the snapshot is
updated exactly then; a throwing read skips the tick; empty content never
emits; and the read sequence ["", "a", "a", "b", ""] emits exactly ["a", "b"]. -/
theorem clipboardMonitor_spec :
    (∀ (last : String) (r : Option String) (t : String),
      (monitorTick last r).2 = some t ↔ r = some t ∧ t ≠ last ∧ t ≠ "") ∧
    (∀ (last : String) (r : Option String),
      (monitorTick last r).1 = ((monitorTick last r).2).getD last) ∧
    (∀ last : String, monitorTick last none = (last, none)) ∧
    (∀ last : String, (monitorTick last (some "")).2 = none) ∧
    (monitorRun "" [some "", some "a", some "a", some "b", some ""]).2 = ["a", "b"] := by
  have key : ∀ (last : String) (r : Option String) (t : String),
      (monitorTick last r).2 = some t ↔ r = some t ∧ t ≠ last ∧ t ≠ "" := by
    intro last r t
    cases r with
    | none => simp [monitorTick]
    | some s =>
      simp only [monitorTick]
      by_cases hc : s ≠ last ∧ s.length > 0
      · rw [if_pos hc]
        constructor
        · intro hst
          obtain rfl := Option.some_inj.1 hst
          exact ⟨rfl, hc.1, (string_ne_empty_iff _).2 hc.2⟩
        · rintro ⟨hst, h1, h2⟩
          obtain rfl := Option.some_inj.1 hst
          rfl
      · rw [if_neg hc]
        constructor
        · intro hst
          exact absurd hst (by simp)
        · rintro ⟨hst, hne, hemp⟩
          obtain rfl := Option.some_inj.1 hst
          exact absurd ⟨hne, (string_ne_empty_iff _).1 hemp⟩ hc
  have snap : ∀ (last : String) (r : Option String),
      (monitorTick last r).1 = ((monitorTick last r).2).getD last := by
    intro last r
    cases r with
    | none => rfl
    | some s =>
      simp only [monitorTick]
      by_cases hc : s ≠ last ∧ s.length > 0
      · rw [if_pos hc]
        rfl
      · rw [if_neg hc]
        rfl
  have emp : ∀ last : String, (monitorTick last (some "")).2 = none := by
    intro last
    simp [monitorTick]
  exact ⟨key, snap, fun _ => rfl, emp, by decide⟩

/-- C10: at most one polling timer is ever active: from the initial state,
start and stop preserve the single-timer invariant, start replaces any
existing timer with exactly one fresh one, and stop without a timer is a
no-op. -/
theorem clipboardMonitor_single_timer :
    MonitorInv ⟨none, [], 0⟩ ∧
    (∀ s : MonitorState, MonitorInv s →
      MonitorInv (startClipboardMonitoring s) ∧ MonitorInv (stopClipboardMonitoring s)) ∧
    (∀ s : MonitorState, MonitorInv s → s.live.length ≤ 1) ∧
    (∀ s : MonitorState, MonitorInv s →
      (startClipboardMonitoring s).live = [(stopClipboardMonitoring s).nextId]) ∧
    (∀ s : MonitorState, s.handle = none → stopClipboardMonitoring s = s) := by
  refine ⟨Or.inl ⟨rfl, rfl⟩, ?_, ?_, ?_, ?_⟩
  · rintro ⟨hd, lv, nid⟩ (⟨h1, h2⟩ | ⟨h, h1, h2, h3⟩)
    · simp only at h1 h2
      subst h1; subst h2
      constructor
      · exact Or.inr ⟨nid, rfl, rfl, Nat.lt_succ_self nid⟩
      · exact Or.inl ⟨rfl, rfl⟩
    · simp only at h1 h2
      subst h1; subst h2
      constructor
      · refine Or.inr ⟨nid, rfl, ?_, Nat.lt_succ_self nid⟩
        simp [startClipboardMonitoring, stopClipboardMonitoring]
      · refine Or.inl ⟨rfl, ?_⟩
        simp [stopClipboardMonitoring]
  · rintro ⟨hd, lv, nid⟩ (⟨h1, h2⟩ | ⟨h, h1, h2, h3⟩)
    · simp only at h2; subst h2; simp
    · simp only at h2; subst h2; simp
  · rintro ⟨hd, lv, nid⟩ (⟨h1, h2⟩ | ⟨h, h1, h2, h3⟩)
    · simp only at h1 h2
      subst h1; subst h2
      rfl
    · simp only at h1 h2
      subst h1; subst h2
      simp [startClipboardMonitoring, stopClipboardMonitoring]
  · rintro ⟨hd, lv, nid⟩ h1
    simp only at h1
    subst h1
    rfl


/-- Witness for C9: concrete instantiations of the bounded-length and
absence parts. -/
theorem logRingBuffer_spec_witness :
    (recordAll 200 [7] ([] : List Nat)).length ≤ 200 ∧
    7 ∉ recordAll 200 (List.range' 1 250) ([] : List Nat) :=
  ⟨logRingBuffer_spec.2.1 [7] [] (by decide),
   logRingBuffer_spec.2.2.2 7 (by decide)⟩

/-- Witness for C10: the invariant holds after a start from the initial
state, and stop without a timer is a no-op at a concrete state. -/
theorem clipboardMonitor_single_timer_witness :
    MonitorInv (startClipboardMonitoring ⟨none, [], 0⟩) ∧
    (startClipboardMonitoring ⟨none, [], 0⟩).live.length ≤ 1 ∧
    stopClipboardMonitoring ⟨none, [], 5⟩ = ⟨none, [], 5⟩ :=
  ⟨(clipboardMonitor_single_timer.2.1 ⟨none, [], 0⟩ (Or.inl ⟨rfl, rfl⟩)).1,
   clipboardMonitor_single_timer.2.2.1 (startClipboardMonitoring ⟨none, [], 0⟩)
     ((clipboardMonitor_single_timer.2.1 ⟨none, [], 0⟩ (Or.inl ⟨rfl, rfl⟩)).1),
   clipboardMonitor_single_timer.2.2.2.2 ⟨none, [], 5⟩ rfl⟩


lemma asu_esc (c : Char) (t : List Char) :
    appleScriptUnescape ('\\' :: c :: t) = c :: appleScriptUnescape t := by
  rw [appleScriptUnescape.eq_def]
  simp

lemma asu_other (c : Char) (t : List Char) (h : c ≠ '\\') :
    appleScriptUnescape (c :: t) = c :: appleScriptUnescape t := by
  rw [appleScriptUnescape.eq_def]
  cases t with
  | nil => simp [h]
  | cons c2 t2 => simp [h]

lemma escapeAppleScript_cons (c : Char) (cs : List Char) :
    escapeAppleScriptL (c :: cs) =
      (if c = '\\' then ['\\', '\\']
       else if c = '"' then ['\\', '"'] else [c]) ++ escapeAppleScriptL cs := by
  by_cases h1 : c = '\\'
  · subst h1
    simp [escapeAppleScriptL]
  by_cases h2 : c = '"'
  · subst h2
    simp [escapeAppleScriptL, List.flatMap_cons, List.flatMap_append, h1]
  · simp [escapeAppleScriptL, List.flatMap_cons, List.flatMap_append, h1, h2]

lemma appleScript_roundtrip (cs : List Char) :
    appleScriptUnescape (escapeAppleScriptL cs) = cs := by
  induction cs with
  | nil => rfl
  | cons c rest ih =>
    rw [escapeAppleScript_cons]
    by_cases h1 : c = '\\'
    · subst h1
      rw [if_pos rfl, List.cons_append, List.cons_append, List.nil_append, asu_esc, ih]
    by_cases h2 : c = '"'
    · subst h2
      rw [if_neg h1, if_pos rfl, List.cons_append, List.cons_append, List.nil_append,
        asu_esc, ih]
    · rw [if_neg h1, if_neg h2, List.singleton_append, asu_other c _ h1, ih]

lemma pasteShellEscape_append (a b : List Char) :
    pasteShellEscapeWindows (a ++ b) =
      pasteShellEscapeWindows a ++ pasteShellEscapeWindows b := by
  induction a with
  | nil => rfl
  | cons c t ih =>
    simp only [List.cons_append, pasteShellEscapeWindows, List.append_eq, ih,
      List.append_assoc]



set_option maxRecDepth 4000 in
/-- C5 counterexample: text of length exactly 200 (at the claimed threshold)
is NOT redirected to the clipboard-paste path; the source tests
`text.length > 200` strictly. -/
theorem simulateKeystrokesMac_at_threshold_not_redirected :
    (String.mk (List.replicate 200 'a')).length = 200 ∧
    (simulateKeystrokesMac (String.mk (List.replicate 200 'a'))).isClipboardPaste = false := by
  decide

/-- C5 (amended): text strictly longer than 200 characters is redirected to
the clipboard-paste path; text of length at most 200 is delivered by one
osascript keystroke invocation with backslash and double-quote
backslash-escaped, an escaping that AppleScript decodes back to the
original text. -/
theorem simulateKeystrokesMac_threshold (text : String) :
    (200 < text.length → simulateKeystrokesMac text = .clipboardPaste text) ∧
    (text.length ≤ 200 → simulateKeystrokesMac text =
      .keystroke ("tell application \"System Events\" to keystroke \""
        ++ String.mk (escapeAppleScriptL text.toList) ++ "\"")) ∧
    (∀ cs : List Char, appleScriptUnescape (escapeAppleScriptL cs) = cs) := by
  refine ⟨?_, ?_, appleScript_roundtrip⟩
  · intro h
    unfold simulateKeystrokesMac
    rw [if_pos h]
  · intro h
    unfold simulateKeystrokesMac
    rw [if_neg (by omega)]

set_option maxRecDepth 4000 in
/-- Witness for C5: a 201-character text goes to the clipboard path, a short
text to the keystroke path. -/
theorem simulateKeystrokesMac_threshold_witness :
    simulateKeystrokesMac (String.mk (List.replicate 201 'b')) =
      .clipboardPaste (String.mk (List.replicate 201 'b')) ∧
    simulateKeystrokesMac "hi" =
      .keystroke ("tell application \"System Events\" to keystroke \""
        ++ String.mk (escapeAppleScriptL "hi".toList) ++ "\"") :=
  ⟨(simulateKeystrokesMac_threshold _).1 (by decide),
   (simulateKeystrokesMac_threshold "hi").2.1 (by decide)⟩

/-- C6 counterexample: on the batched keystroke-simulation path, a newline
is NOT translated to the ENTER token; it passes through the per-batch
escaping unchanged. -/
theorem windowsBatch_newline_not_translated :
    windowsBatchLiteral ['\n'] = ['\n'] ∧ windowsBatchLiteral ['\n'] ≠ enterToken := by
  decide

/-- C6 (amended): on the shell-paste path every newline becomes the ENTER
token and every carriage return is dropped, while the batched
keystroke-simulation path leaves both characters unchanged. -/
theorem windowsNewline_translation (a b : List Char) :
    pasteShellEscapeWindows (a ++ '\n' :: b) =
      pasteShellEscapeWindows a ++ enterToken ++ pasteShellEscapeWindows b ∧
    pasteShellEscapeWindows (a ++ '\r' :: b) =
      pasteShellEscapeWindows a ++ pasteShellEscapeWindows b ∧
    escapedBatchWindows (a ++ '\n' :: b) =
      escapedBatchWindows a ++ '\n' :: escapedBatchWindows b ∧
    escapedBatchWindows (a ++ '\r' :: b) =
      escapedBatchWindows a ++ '\r' :: escapedBatchWindows b := by
  refine ⟨?_, ?_, ?_, ?_⟩
  · rw [pasteShellEscape_append]
    have e : pasteShellEscapeWindows ('\n' :: b) = enterToken ++ pasteShellEscapeWindows b := by
      simp [pasteShellEscapeWindows, enterToken]
    rw [e, List.append_assoc]
  · rw [pasteShellEscape_append]
    have e : pasteShellEscapeWindows ('\r' :: b) = pasteShellEscapeWindows b := by
      simp [pasteShellEscapeWindows]
    rw [e]
  · rw [escapedBatchWindows, List.flatMap_append, List.flatMap_cons]
    have e : escapeSendKeysL '\n' = ['\n'] := by decide
    rw [e]
    rfl
  · rw [escapedBatchWindows, List.flatMap_append, List.flatMap_cons]
    have e : escapeSendKeysL '\r' = ['\r'] := by decide
    rw [e]
    rfl



lemma jsReplaceChar_flatMap (c : Char) (out : List Char) (l : List Char)
    (f : Char → List Char) :
    jsReplaceChar c out (l.flatMap f) =
      l.flatMap fun x => jsReplaceChar c out (f x) := by
  unfold jsReplaceChar
  exact List.flatMap_assoc l f _

lemma jsReplaceChar_singleton (c : Char) (out : List Char) (x : Char) :
    jsReplaceChar c out [x] = if x = c then out else [x] := by
  simp [jsReplaceChar]

lemma psDQ_onepass (cs : List Char) :
    escapePowerShellDQ cs = jsReplaceCRLF (cs.flatMap psDQCharMap) := by
  unfold escapePowerShellDQ
  have e1 : jsReplaceChar '\\' ['\\', '\\'] cs =
      cs.flatMap fun x => jsReplaceChar '\\' ['\\', '\\'] [x] := by
    unfold jsReplaceChar
    congr 1
    funext x
    simp
  rw [e1, jsReplaceChar_flatMap, jsReplaceChar_flatMap, jsReplaceChar_flatMap,
    jsReplaceChar_flatMap, jsReplaceChar_flatMap]
  congr 1
  apply List.flatMap_congr
  intro x _
  by_cases h1 : x = '\\'
  · subst h1; decide
  by_cases h2 : x = '"'
  · subst h2; decide
  by_cases h3 : x = btick
  · subst h3; decide
  by_cases h4 : x = '$'
  · subst h4; decide
  by_cases h5 : x = '['
  · subst h5; decide
  by_cases h6 : x = ']'
  · subst h6; decide
  · simp [jsReplaceChar_singleton, h1, h2, h3, h4, h5, h6, psDQCharMap]



lemma jsrc_other (c : Char) (t : List Char) (h1 : c ≠ '\r') (h2 : c ≠ '\n') :
    jsReplaceCRLF (c :: t) = c :: jsReplaceCRLF t := by
  rw [jsReplaceCRLF.eq_def]
  cases t with
  | nil => simp [h1, h2]
  | cons c2 t2 => simp [h1, h2]

lemma jsReplaceCRLF_id (cs : List Char) (h : ∀ c ∈ cs, c ≠ '\r' ∧ c ≠ '\n') :
    jsReplaceCRLF cs = cs := by
  induction cs with
  | nil => rfl
  | cons c rest ih =>
    have hc := h c (List.mem_cons_self c rest)
    rw [jsrc_other c rest hc.1 hc.2, ih (fun d hd => h d (List.mem_cons_of_mem c hd))]

lemma psDQCharMap_mem (x d : Char) (hd : d ∈ psDQCharMap x) : d = x ∨ d = btick := by
  by_cases h1 : x = '\\'
  · subst h1
    rw [show psDQCharMap '\\' = ['\\', '\\'] from by decide] at hd
    simp at hd
    exact Or.inl hd
  by_cases h2 : x = '"'
  · subst h2
    rw [show psDQCharMap '"' = ['"', '"'] from by decide] at hd
    simp at hd
    exact Or.inl hd
  by_cases h3 : x = btick
  · subst h3
    rw [show psDQCharMap btick = [btick, btick] from by decide] at hd
    simp at hd
    exact Or.inl hd
  by_cases h4 : x = '$'
  · subst h4
    rw [show psDQCharMap '$' = [btick, '$'] from by decide] at hd
    simp at hd
    exact hd.symm
  by_cases h5 : x = '['
  · subst h5
    rw [show psDQCharMap '[' = [btick, '['] from by decide] at hd
    simp at hd
    exact hd.symm
  by_cases h6 : x = ']'
  · subst h6
    rw [show psDQCharMap ']' = [btick, ']'] from by decide] at hd
    simp at hd
    exact hd.symm
  · simp [psDQCharMap, h1, h2, h3, h4, h5, h6] at hd
    exact Or.inl hd



/-- C7 counterexample: in the PowerShell double-quoted-string escaping,
backslash is escaped by doubling the backslash and double quote by doubling
the quote, not by a backtick prefix as the claim states. -/
theorem psDQ_backslash_quote_not_backtick :
    escapePowerShellDQ ['\\'] = ['\\', '\\'] ∧ escapePowerShellDQ ['\\'] ≠ [btick, '\\'] ∧
    escapePowerShellDQ ['"'] = ['"', '"'] ∧ escapePowerShellDQ ['"'] ≠ [btick, '"'] := by
  decide

/-- C7 (amended): the `paste-powershell` escaping chain equals one
per-character pass followed by the newline pass; backtick, `$`, `[` and `]`
receive a backtick prefix, backslash and double quote are doubled with
themselves, and `\r\n` or a lone `\n` becomes the ENTER token (a lone
carriage return is left alone). -/
theorem escapePowerShellDQ_spec (cs : List Char) :
    escapePowerShellDQ cs = jsReplaceCRLF (cs.flatMap psDQCharMap) ∧
    ('\r' ∉ cs → '\n' ∉ cs → escapePowerShellDQ cs = cs.flatMap psDQCharMap) ∧
    escapePowerShellDQ [btick] = [btick, btick] ∧
    escapePowerShellDQ ['$'] = [btick, '$'] ∧
    escapePowerShellDQ ['['] = [btick, '['] ∧
    escapePowerShellDQ [']'] = [btick, ']'] ∧
    escapePowerShellDQ ['\r', '\n'] = enterToken ∧
    escapePowerShellDQ ['\n'] = enterToken ∧
    escapePowerShellDQ ['\r'] = ['\r'] := by
  refine ⟨psDQ_onepass cs, ?_, by decide, by decide, by decide, by decide,
    by decide, by decide, by decide⟩
  intro hr hn
  rw [psDQ_onepass cs]
  apply jsReplaceCRLF_id
  intro c hc
  obtain ⟨x, hx, hcx⟩ := List.mem_flatMap.1 hc
  rcases psDQCharMap_mem x c hcx with rfl | rfl
  · constructor
    · intro he
      subst he
      exact hr hx
    · intro he
      subst he
      exact hn hx
  · constructor <;> decide

/-- Witness for C7: a newline-free text is exactly the one-pass map. -/
theorem escapePowerShellDQ_spec_witness :
    escapePowerShellDQ ['a', '$'] = ['a', '$'].flatMap psDQCharMap :=
  (escapePowerShellDQ_spec ['a', '$']).2.1 (by decide) (by decide)



lemma exec_pre (tm : Nat) (pre : List ProcEvent)
    (hpre : ∀ x ∈ pre, x.isTerminal = false) :
    ∀ out err : String,
      pre.foldl (execStep tm) ⟨out, err, false, none⟩ =
        ⟨out ++ stdoutOf pre, err ++ stderrOf pre, false, none⟩ := by
  induction pre with
  | nil =>
    intro out err
    simp [stdoutOf, stderrOf, String.append_empty]
  | cons x rest ih =>
    intro out err
    have hx := hpre x (List.mem_cons_self x rest)
    have hrest : ∀ y ∈ rest, y.isTerminal = false :=
      fun y hy => hpre y (List.mem_cons_of_mem x hy)
    cases x with
    | timeoutFires => simp [ProcEvent.isTerminal] at hx
    | closeEvt c => simp [ProcEvent.isTerminal] at hx
    | errorEvt m => simp [ProcEvent.isTerminal] at hx
    | stdoutData d =>
      rw [List.foldl_cons]
      have estep : execStep tm ⟨out, err, false, none⟩ (.stdoutData d) =
          ⟨out ++ d, err, false, none⟩ := rfl
      rw [estep, ih hrest (out ++ d) err]
      have e1 : stdoutOf (.stdoutData d :: rest) = d ++ stdoutOf rest := rfl
      have e2 : stderrOf (.stdoutData d :: rest) = stderrOf rest := rfl
      rw [e1, e2, String.append_assoc]
    | stderrData d =>
      rw [List.foldl_cons]
      have estep : execStep tm ⟨out, err, false, none⟩ (.stderrData d) =
          ⟨out, err ++ d, false, none⟩ := rfl
      rw [estep, ih hrest out (err ++ d)]
      have e1 : stdoutOf (.stderrData d :: rest) = stdoutOf rest := rfl
      have e2 : stderrOf (.stderrData d :: rest) = d ++ stderrOf rest := rfl
      rw [e1, e2, String.append_assoc]

lemma exec_post (tm : Nat) (post : List ProcEvent) :
    ∀ s : ExecState, s.completed = true →
      (post.foldl (execStep tm) s).completed = true ∧
      (post.foldl (execStep tm) s).result = s.result := by
  induction post with
  | nil => intro s h; exact ⟨h, rfl⟩
  | cons x rest ih =>
    intro s h
    cases x with
    | timeoutFires =>
      rw [List.foldl_cons]
      have estep : execStep tm s .timeoutFires = s := by
        simp [execStep, h]
      rw [estep]
      exact ih s h
    | closeEvt c =>
      rw [List.foldl_cons]
      have estep : execStep tm s (.closeEvt c) = s := by
        simp [execStep, h]
      rw [estep]
      exact ih s h
    | errorEvt m =>
      rw [List.foldl_cons]
      have estep : execStep tm s (.errorEvt m) = s := by
        simp [execStep, h]
      rw [estep]
      exact ih s h
    | stdoutData d =>
      rw [List.foldl_cons]
      exact ih { s with output := s.output ++ d } h
    | stderrData d =>
      rw [List.foldl_cons]
      exact ih { s with error := s.error ++ d } h

lemma exec_terminal_step (tm : Nat) (out err : String) (e : ProcEvent)
    (he : e.isTerminal = true) :
    (execStep tm ⟨out, err, false, none⟩ e).completed = true ∧
    (execStep tm ⟨out, err, false, none⟩ e).result = resolveEvent tm out err e := by
  cases e with
  | timeoutFires => exact ⟨rfl, rfl⟩
  | closeEvt c => exact ⟨rfl, rfl⟩
  | errorEvt m => exact ⟨rfl, rfl⟩
  | stdoutData d => simp [ProcEvent.isTerminal] at he
  | stderrData d => simp [ProcEvent.isTerminal] at he

/-- C2: the result of `executeCommand` is determined by the first terminal
event of the trace — timeout gives `success=false` with error
"Command timed out" and no exit code, close with code 0 gives `success=true`
with the captured output, close with a non-zero code gives `success=false`
with the captured stderr or a generic message naming the code, and a spawn
error gives `success=false` with the system error text and no exit code —
and exactly one result is produced (later terminal events cannot change it);
the embedding only ever resolves, never rejects. -/
theorem executeCommand_first_terminal (tm : Nat) (pre : List ProcEvent)
    (e : ProcEvent) (post : List ProcEvent)
    (hpre : ∀ x ∈ pre, x.isTerminal = false) (he : e.isTerminal = true) :
    (executeCommand tm (pre ++ e :: post)).result =
      resolveEvent tm (stdoutOf pre) (stderrOf pre) e ∧
    ((executeCommand tm (pre ++ e :: post)).result).isSome = true := by
  unfold executeCommand
  rw [List.foldl_append, List.foldl_cons]
  have h1 := exec_pre tm pre hpre "" ""
  have h0 : ∀ s : String, "" ++ s = s := fun s => rfl
  rw [h1, h0, h0]
  obtain ⟨hcomp, hres⟩ := exec_terminal_step tm (stdoutOf pre) (stderrOf pre) e he
  obtain ⟨hc2, hr2⟩ := exec_post tm post _ hcomp
  rw [hr2, hres]
  refine ⟨rfl, ?_⟩
  cases e with
  | timeoutFires => rfl
  | closeEvt c =>
    by_cases hc : c = 0
    · subst hc; rfl
    · simp [resolveEvent, hc]
  | errorEvt m => rfl
  | stdoutData d => simp [ProcEvent.isTerminal] at he
  | stderrData d => simp [ProcEvent.isTerminal] at he

/-- Witness for C2: a close with code 1 after captured stderr wins over the
later close and timeout events. -/
theorem executeCommand_first_terminal_witness :
    (executeCommand 5000 ([.stdoutData "hi", .stderrData "oops"] ++
        ProcEvent.closeEvt 1 :: [.closeEvt 0, .timeoutFires])).result =
      resolveEvent 5000 (stdoutOf [.stdoutData "hi", .stderrData "oops"])
        (stderrOf [.stdoutData "hi", .stderrData "oops"]) (.closeEvt 1) ∧
    ((executeCommand 5000 ([.stdoutData "hi", .stderrData "oops"] ++
        ProcEvent.closeEvt 1 :: [.closeEvt 0, .timeoutFires])).result).isSome = true :=
  executeCommand_first_terminal 5000 _ _ _ (by decide) (by decide)



lemma attemptedOffsets_step (len bs idx : Nat) :
    attemptedOffsets len bs idx =
      if len ≤ idx then [] else idx :: attemptedOffsets len bs (idx + max 1 bs) := by
  rw [attemptedOffsets.eq_def]
  split_ifs with h
  · rfl
  · rfl

lemma one_le_batchSize (delay : Nat) : 1 ≤ batchSize delay :=
  Nat.le_max_left 1 _

lemma go_spec (textLen delay : Nat) (fail : Nat → Option String) :
    ∀ (n idx : Nat) (errors : List String), textLen - idx ≤ n →
      simulateKeystrokesWindowsRun.go textLen delay fail idx errors =
        ⟨(errors ++ (attemptedOffsets textLen (batchSize delay) idx).flatMap
            (fun i => ((fail i).map fun m =>
              "Position " ++ toString i ++ ": " ++ m).toList)).isEmpty,
         if (errors ++ (attemptedOffsets textLen (batchSize delay) idx).flatMap
            (fun i => ((fail i).map fun m =>
              "Position " ++ toString i ++ ": " ++ m).toList)).isEmpty then none
         else some (errors ++ (attemptedOffsets textLen (batchSize delay) idx).flatMap
            (fun i => ((fail i).map fun m =>
              "Position " ++ toString i ++ ": " ++ m).toList))⟩ := by
  intro n
  induction n with
  | zero =>
    intro idx errors hn
    have hle : textLen ≤ idx := by omega
    rw [simulateKeystrokesWindowsRun.go.eq_def, dif_pos hle,
      attemptedOffsets_step, if_pos hle]
    simp
  | succ n ih =>
    intro idx errors hn
    by_cases hle : textLen ≤ idx
    · rw [simulateKeystrokesWindowsRun.go.eq_def, dif_pos hle,
        attemptedOffsets_step, if_pos hle]
      simp
    · have hb := one_le_batchSize delay
      have hmax : max 1 (batchSize delay) = batchSize delay := Nat.max_eq_right hb
      rw [simulateKeystrokesWindowsRun.go.eq_def, dif_neg hle,
        attemptedOffsets_step, if_neg hle, hmax, List.flatMap_cons,
        ih (idx + batchSize delay) _ (by omega)]
      rw [← List.append_assoc]



lemma attempted_mem (len bs : Nat) :
    ∀ k idx : Nat, idx + k * max 1 bs < len →
      idx + k * max 1 bs ∈ attemptedOffsets len bs idx := by
  intro k
  induction k with
  | zero =>
    intro idx h
    rw [attemptedOffsets_step, if_neg (by omega)]
    simp
  | succ k ih =>
    intro idx h
    rw [attemptedOffsets_step, if_neg (by omega)]
    have e : idx + (k + 1) * max 1 bs = (idx + max 1 bs) + k * max 1 bs := by ring
    rw [e]
    exact List.mem_cons_of_mem _ (ih (idx + max 1 bs) (by omega))

/-- C8: the batched Windows run returns success exactly when the itemized
error list is empty, carries that list (as `Position <offset>: <message>`
entries) when non-empty, attempts every batch offset regardless of earlier
failures, and returns `{success := true, errors := none}` when every batch
succeeds. -/
theorem simulateKeystrokesWindows_partial_failure (textLen delay : Nat)
    (fail : Nat → Option String) :
    simulateKeystrokesWindowsRun textLen delay fail =
      ⟨(itemizedErrors textLen (batchSize delay) fail).isEmpty,
       if (itemizedErrors textLen (batchSize delay) fail).isEmpty then none
       else some (itemizedErrors textLen (batchSize delay) fail)⟩ ∧
    (∀ k : Nat, k * batchSize delay < textLen →
      k * batchSize delay ∈ attemptedOffsets textLen (batchSize delay) 0) ∧
    ((∀ i ∈ attemptedOffsets textLen (batchSize delay) 0, fail i = none) →
      simulateKeystrokesWindowsRun textLen delay fail = ⟨true, none⟩) := by
  have hmax : max 1 (batchSize delay) = batchSize delay :=
    Nat.max_eq_right (one_le_batchSize delay)
  have main : simulateKeystrokesWindowsRun textLen delay fail =
      ⟨(itemizedErrors textLen (batchSize delay) fail).isEmpty,
       if (itemizedErrors textLen (batchSize delay) fail).isEmpty then none
       else some (itemizedErrors textLen (batchSize delay) fail)⟩ := by
    unfold simulateKeystrokesWindowsRun itemizedErrors
    rw [go_spec textLen delay fail textLen 0 [] (by omega)]
    simp
  refine ⟨main, ?_, ?_⟩
  · intro k hk
    have hk2 : 0 + k * max 1 (batchSize delay) < textLen := by
      rw [hmax]
      omega
    have := attempted_mem textLen (batchSize delay) k 0 hk2
    rw [hmax] at this
    simpa using this
  · intro hall
    have he : itemizedErrors textLen (batchSize delay) fail = [] := by
      unfold itemizedErrors
      apply List.flatMap_eq_nil_iff.mpr
      intro i hi
      rw [hall i hi]
      rfl
    rw [main, he]
    rfl

/-- Witness for C8: a run with one failing batch, and a specific offset
that is attempted. -/
theorem simulateKeystrokesWindows_partial_failure_witness :
    simulateKeystrokesWindowsRun 10 50 (fun i => if i = 4 then some "boom" else none) =
      ⟨(itemizedErrors 10 (batchSize 50) (fun i => if i = 4 then some "boom" else none)).isEmpty,
       if (itemizedErrors 10 (batchSize 50)
            (fun i => if i = 4 then some "boom" else none)).isEmpty then none
       else some (itemizedErrors 10 (batchSize 50)
            (fun i => if i = 4 then some "boom" else none))⟩ ∧
    1 * batchSize 50 ∈ attemptedOffsets 10 (batchSize 50) 0 :=
  ⟨(simulateKeystrokesWindows_partial_failure 10 50 _).1,
   (simulateKeystrokesWindows_partial_failure 10 50
      (fun i => if i = 4 then some "boom" else none)).2.1 1 (by decide)⟩


end Oblysk
